import Mathlib

/-!
Verification development for the Varnan transliteration service.

The definitions below are a shallow embedding of the core text pipeline:

* `transliteration/formatters.py` — the `TransliterationFormatter` class:
  script classification, word/character correction tables, the Indic-script
  casing repair, English/Roman formatting, and whitespace collapsing.
* `transliteration/views.py` — the orchestration of the two API entry points:
  language-to-script resolution, the per-target conversion attempt with its
  single ITRANS fallback hop, and the total-failure substitution policy.

Python strings are modelled as `List Char` (sequences of Unicode code
points).  Python's `str.replace`, `str.split`, `' '.join`, `str.lower`,
`str.title`, `str.isupper`/`str.islower` are modelled by executable Lean
functions below; the case functions are modelled on the ASCII letters, which
is exact for every character class the source manipulates (the regexes and
replacement tables only case-map `[A-Z]`/`[a-z]`).  The external
transliteration engine (`aksharamukha.transliterate.process`) is opaque in
the source and is modelled as an abstract oracle of type `Conv` that may
fail (`Option`).
-/

namespace Varnan

/-! ### Character classes (ASCII model of the Python predicates) -/

/-- `[A-Z]` / `str.isupper` on a single character (ASCII). -/
def isAsciiUpper (c : Char) : Bool := decide (65 ≤ c.toNat ∧ c.toNat ≤ 90)

/-- `[a-z]` / `str.islower` on a single character (ASCII). -/
def isAsciiLower (c : Char) : Bool := decide (97 ≤ c.toNat ∧ c.toNat ≤ 122)

/-- `str.isalpha` on a single character (ASCII model). -/
def isAsciiAlpha (c : Char) : Bool := isAsciiUpper c || isAsciiLower c

/-- `[0-9]`. -/
def isAsciiDigit (c : Char) : Bool := decide (48 ≤ c.toNat ∧ c.toNat ≤ 57)

/-- Python `str.lower()` per character; exact on ASCII, identity elsewhere
(the source only ever lowercases matched `[A-Z]` characters, where this is
exact). -/
def pyLower (c : Char) : Char :=
  if isAsciiUpper c then Char.ofNat (c.toNat + 32) else c

/-- Python `str.upper()` per character; exact on ASCII, identity elsewhere. -/
def pyUpper (c : Char) : Char :=
  if isAsciiLower c then Char.ofNat (c.toNat - 32) else c

/-- Python `str.split()` whitespace (ASCII whitespace characters). -/
def isPySpace (c : Char) : Bool :=
  c = ' ' || c = '\t' || c = '\n' || c = '\r' || c = '\x0b' || c = '\x0c'

/-- Code-point range test `lo <= ord c <= hi`. -/
def inCodeRange (c : Char) (lo hi : Nat) : Bool :=
  decide (lo ≤ c.toNat ∧ c.toNat ≤ hi)

/-! ### Unicode script blocks (formatters.py lines 90–94 and 139–149) -/

def isDevanagariChar (c : Char) : Bool := inCodeRange c 0x900 0x97f
def isBengaliChar (c : Char) : Bool := inCodeRange c 0x980 0x9ff
def isPunjabiChar (c : Char) : Bool := inCodeRange c 0xa00 0xa7f
def isGujaratiChar (c : Char) : Bool := inCodeRange c 0xa80 0xaff
def isTamilChar (c : Char) : Bool := inCodeRange c 0xb80 0xbff
def isTeluguChar (c : Char) : Bool := inCodeRange c 0xc00 0xc7f
def isKannadaChar (c : Char) : Bool := inCodeRange c 0xc80 0xcff
def isMalayalamChar (c : Char) : Bool := inCodeRange c 0xd00 0xd7f

/-- The combined `indian_scripts` alternation used by the regexes of
`_clean_indian_script` (formatters.py lines 139–149): eight blocks. -/
def isIndic8 (c : Char) : Bool :=
  isDevanagariChar c || isTeluguChar c || isTamilChar c || isKannadaChar c ||
  isMalayalamChar c || isGujaratiChar c || isBengaliChar c || isPunjabiChar c

/-- Modelled from the spec: the per-character test over the eight Unicode
block ranges that §4.1 of the spec says decide the Indic branch
(Devanagari, Bengali, Gurmukhi, Gujarati, Tamil, Telugu, Kannada,
Malayalam).  Kept separate from `is_indian_script`, which is translated from
the branch test actually in `clean_transliteration` (five ranges), so the
two can be compared. -/
def specIndicChar (c : Char) : Bool :=
  isDevanagariChar c || isBengaliChar c || isPunjabiChar c || isGujaratiChar c ||
  isTamilChar c || isTeluguChar c || isKannadaChar c || isMalayalamChar c

/-- The per-character union of the five ranges actually tested by the
branch in `clean_transliteration`. -/
def branchIndicChar (c : Char) : Bool :=
  isDevanagariChar c || isTeluguChar c || isTamilChar c || isKannadaChar c ||
  isGujaratiChar c

/-- formatters.py lines 90–94: the `is_indian_script` branch condition of
`clean_transliteration`.  Note: only five ranges are tested here
(Devanagari, Telugu, Tamil, Kannada, Gujarati). -/
def is_indian_script (s : List Char) : Bool :=
  s.any isDevanagariChar || s.any isTeluguChar || s.any isTamilChar ||
  s.any isKannadaChar || s.any isGujaratiChar

/-- formatters.py line 108: `any(c.isupper() and c.isalpha() for c in cleaned_text)`. -/
def has_english_caps (s : List Char) : Bool :=
  s.any (fun c => isAsciiUpper c && isAsciiAlpha c)

/-- formatters.py lines 109–111: the inner `has_indian_script` check of the
mixed-script step (only Devanagari, Telugu and Tamil ranges). -/
def has_indian_script_inner (s : List Char) : Bool :=
  s.any isDevanagariChar || s.any isTeluguChar || s.any isTamilChar

/-- The per-character union of the three inner ranges. -/
def devTelTamChar (c : Char) : Bool :=
  isDevanagariChar c || isTeluguChar c || isTamilChar c

/-! ### Python string primitives on `List Char` -/

/-- Python's substring test `pat in s`. -/
def containsSub (pat : List Char) : List Char → Bool
  | [] => pat.isPrefixOf []
  | c :: rest => pat.isPrefixOf (c :: rest) || containsSub pat rest

/-- Fuel-indexed worker for Python's `s.replace(pat, rep)`: replace every
non-overlapping occurrence of `pat`, scanning left to right.  Fuel
`s.length` suffices since every step consumes at least one character.
(Python's special behaviour for an empty pattern is not modelled; every
pattern in the source tables is non-empty.) -/
def replaceGo (pat rep : List Char) : Nat → List Char → List Char
  | _, [] => []
  | 0, s => s
  | fuel + 1, c :: rest =>
    if pat ≠ [] ∧ pat.isPrefixOf (c :: rest) then
      rep ++ replaceGo pat rep fuel ((c :: rest).drop pat.length)
    else
      c :: replaceGo pat rep fuel rest

/-- Python's `s.replace(pat, rep)`. -/
def pyReplace (s pat rep : List Char) : List Char :=
  replaceGo pat rep s.length s

/-- Python's `s.lower()` on a whole string. -/
def pyStrLower (s : List Char) : List Char := s.map pyLower

/-! ### The static correction tables (formatters.py `__init__`) -/

/-- `self.character_replacements` (ordered as in the dict literal). -/
def character_replacements : List (Char × List Char) :=
  [('ò', ['o']), ('ḻ', ['l']), ('ṅ', ['n','g']), ('ṇ', ['n']), ('ṭ', ['t']),
   ('ḍ', ['d']), ('ṣ', ['s','h']), ('ṃ', ['m']), ('ḥ', ['h']), ('ṁ', ['m']),
   ('ḷ', ['l']), ('ṛ', ['r']), ('ṝ', ['r']),
   ('I', ['i']), ('A', ['a']), ('U', ['u']), ('E', ['e']), ('O', ['o'])]

/-- `self.vowel_length_mappings`. -/
def vowel_length_mappings : List (Char × List Char) :=
  [('ī', ['e','e']), ('ā', ['a','a']), ('ū', ['u','u']), ('ē', ['e','e']),
   ('ō', ['o','o']), ('ṛ', ['r','i']), ('ṝ', ['r','i'])]

/-- `self.word_corrections`. -/
def word_corrections : List (List Char × List Char) :=
  [("dIpòvaLi".toList, "Deepavali".toList),
   ("dīpòvaḻi".toList, "Deepavali".toList),
   ("dIpAvalI".toList, "Deepavali".toList),
   ("dīpāvalī".toList, "Deepavali".toList),
   ("dIpAvaLi".toList, "Deepavali".toList),
   ("dīpāvaḻi".toList, "Deepavali".toList),
   ("avItAlat".toList, "Aveetalat".toList),
   ("avītālat".toList, "Aveetalat".toList),
   ("dipavaLi".toList, "Deepavali".toList)]

/-- `self.english_to_indian_corrections`. -/
def english_to_indian_corrections : List (List Char × List Char) :=
  [("Changes".toList, "चेंजेस".toList),
   ("Bhatta".toList, "भट्टा".toList),
   ("Fall".toList, "फॉल".toList),
   ("Hello".toList, "हेलो".toList),
   ("India".toList, "इंडिया".toList),
   ("Welcome".toList, "वेलकम".toList)]

/-! ### The non-Indic branch passes of `clean_transliteration` -/

/-- One iteration of the word-correction loop (formatters.py lines 102–104):
case-insensitive containment gate, case-sensitive replace. -/
def wcStep (cur : List Char) (kv : List Char × List Char) : List Char :=
  if containsSub (pyStrLower kv.1) (pyStrLower cur) then pyReplace cur kv.1 kv.2
  else cur

/-- formatters.py lines 101–104: apply `word_corrections` in table order. -/
def wordCorrectionsPass (text : List Char) : List Char :=
  word_corrections.foldl wcStep text

/-- formatters.py lines 113–117: the English-to-Indic whole-word
substitution, gated on the mixed-script condition. -/
def mixedScriptStep (t : List Char) : List Char :=
  if has_english_caps t && has_indian_script_inner t then
    english_to_indian_corrections.foldl
      (fun cur kv => if containsSub kv.1 cur then pyReplace cur kv.1 kv.2 else cur) t
  else t

/-- Sequential single-character `str.replace` over a table, in table order
(the loop shape of formatters.py lines 120–121 and 170–171). -/
def charTableFold (tbl : List (Char × List Char)) (s : List Char) : List Char :=
  tbl.foldl (fun cur kv => pyReplace cur [kv.1] kv.2) s

/-- formatters.py lines 120–121: apply `character_replacements`. -/
def charReplacementsPass (s : List Char) : List Char :=
  charTableFold character_replacements s

/-- formatters.py lines 170–171: apply `vowel_length_mappings`. -/
def vowelLengthPass (s : List Char) : List Char :=
  charTableFold vowel_length_mappings s

/-! ### `text.split()` and `' '.join(...)` -/

/-- Worker for Python `str.split()`: `cur` is the (reversed) token being
accumulated. -/
def pySplitGo (cur : List Char) : List Char → List (List Char)
  | [] => if cur = [] then [] else [cur.reverse]
  | c :: rest =>
    if isPySpace c then
      if cur = [] then pySplitGo [] rest else cur.reverse :: pySplitGo [] rest
    else
      pySplitGo (c :: cur) rest

/-- Python `text.split()` (split on whitespace runs, dropping empties). -/
def pySplit (s : List Char) : List (List Char) := pySplitGo [] s

/-- Python `' '.join(tokens)`. -/
def joinSp : List (List Char) → List Char
  | [] => []
  | [t] => t
  | t :: t2 :: ts => t ++ ' ' :: joinSp (t2 :: ts)

/-- formatters.py line 128: `' '.join(cleaned_text.split())`. -/
def collapseWS (s : List Char) : List Char := joinSp (pySplit s)

/-! ### `_format_for_english` (formatters.py lines 165–191) -/

/-- Python `str.title()` (ASCII model: a letter is uppercased when it starts
an alphabetic run and lowercased otherwise). -/
def pyTitleGo (prevAlpha : Bool) : List Char → List Char
  | [] => []
  | c :: rest =>
    if isAsciiAlpha c then
      (if prevAlpha then pyLower c else pyUpper c) :: pyTitleGo true rest
    else
      c :: pyTitleGo false rest

/-- Python `word.title()`. -/
def pyTitle (s : List Char) : List Char := pyTitleGo false s

/-- Python `s.isupper()` for a whole string: at least one cased character
and no lowercase cased character (ASCII model: cased = letter). -/
def pyIsUpperStr (s : List Char) : Bool :=
  s.any isAsciiAlpha && s.all (fun c => !isAsciiAlpha c || isAsciiUpper c)

/-- Python `s.islower()` for a whole string. -/
def pyIsLowerStr (s : List Char) : Bool :=
  s.any isAsciiAlpha && s.all (fun c => !isAsciiAlpha c || isAsciiLower c)

/-- formatters.py line 184: `any(ch in word for ch in ['aa','ee','ii','oo','uu'])`. -/
def hasDoubleVowel (w : List Char) : Bool :=
  containsSub ['a','a'] w || containsSub ['e','e'] w || containsSub ['i','i'] w ||
  containsSub ['o','o'] w || containsSub ['u','u'] w

/-- The per-word body of the loop in `_format_for_english`
(formatters.py lines 177–189).  A word produced by `split()` is non-empty;
the empty case is unreachable and returned unchanged. -/
def formatWord (w : List Char) : List Char :=
  match w with
  | [] => []
  | c :: rest =>
    if pyIsUpperStr w || (isAsciiUpper c && pyIsLowerStr rest) then w
    else if hasDoubleVowel w || w.length > 4 || pyIsLowerStr w then pyTitle w
    else w

/-- formatters.py lines 165–191: `_format_for_english`. -/
def format_for_english (text : List Char) : List Char :=
  joinSp ((pySplit (vowelLengthPass text)).map formatWord)

/-! ### `_clean_indian_script` (formatters.py lines 132–163)

Each of the four `re.sub` calls scans the string left to right for
non-overlapping matches; each replacement only lowercases the matched
`[A-Z]` character.  They are modelled as four structural passes. -/

/-- Rule 1: `re.sub('([A-Z])(indic)', lower-first, text)`. -/
def rule1 : List Char → List Char
  | [] => []
  | [c] => [c]
  | a :: b :: rest =>
    if isAsciiUpper a && isIndic8 b then pyLower a :: b :: rule1 rest
    else a :: rule1 (b :: rest)

/-- Rule 2: `re.sub('(indic)([A-Z])', lower-second, ...)`. -/
def rule2 : List Char → List Char
  | [] => []
  | [c] => [c]
  | a :: b :: rest =>
    if isIndic8 a && isAsciiUpper b then a :: pyLower b :: rule2 rest
    else a :: rule2 (b :: rest)

/-- Rule 3: `re.sub('(indic)([A-Z])(indic)', lower-middle, ...)`. -/
def rule3 : List Char → List Char
  | a :: b :: c :: rest =>
    if isIndic8 a && isAsciiUpper b && isIndic8 c then
      a :: pyLower b :: c :: rule3 rest
    else a :: rule3 (b :: c :: rest)
  | s => s

/-- Python `\w` for the character sets reachable here (ASCII word characters
plus the eight Indic blocks; Python's `\w` covers all Unicode word
characters, of which these are the ones the pipeline manipulates). -/
def isWordChar (c : Char) : Bool :=
  isAsciiAlpha c || isAsciiDigit c || c = '_' || isIndic8 c

/-- Rule 4: `re.sub('\b[A-Z]\b', lower, ...)` — a standalone uppercase
letter, i.e. one with a non-word character (or a string end) on both
sides.  Word boundaries are judged on the original characters, as `re.sub`
does. -/
def rule4Go (prev : Option Char) : List Char → List Char
  | [] => []
  | c :: rest =>
    (if isAsciiUpper c
        && (match prev with | none => true | some p => !isWordChar p)
        && (match rest with | [] => true | d :: _ => !isWordChar d)
     then pyLower c else c) :: rule4Go (some c) rest

/-- Rule 4 entry point. -/
def rule4 (s : List Char) : List Char := rule4Go none s

/-- formatters.py lines 132–163: `_clean_indian_script`. -/
def clean_indian_script (text : List Char) : List Char :=
  rule4 (rule3 (rule2 (rule1 text)))

/-! ### Properties of interest for the Indic repair -/

/-- No adjacent (uppercase, Indic) pair. -/
def noUpperBeforeIndic : List Char → Bool
  | a :: b :: t => !(isAsciiUpper a && isIndic8 b) && noUpperBeforeIndic (b :: t)
  | _ => true

/-- No adjacent (Indic, uppercase) pair. -/
def noUpperAfterIndic : List Char → Bool
  | a :: b :: t => !(isIndic8 a && isAsciiUpper b) && noUpperAfterIndic (b :: t)
  | _ => true

/-- No uppercase letter sandwiched between two Indic characters. -/
def noSandwichedUpper : List Char → Bool
  | a :: b :: c :: t =>
    !(isIndic8 a && isAsciiUpper b && isIndic8 c) && noSandwichedUpper (b :: c :: t)
  | _ => true

/-- Pointwise relation: a character is kept, or was uppercase and got
lowercased. -/
def lowerStep (a b : Char) : Prop :=
  b = a ∨ (isAsciiUpper a = true ∧ b = pyLower a)

/-! ### `clean_transliteration` (formatters.py lines 75–130) -/

/-- The Roman-output test of line 124 (`str(target_script)` of a string is
itself, so the second disjunct of the source condition is redundant). -/
def romanTargets : List String := ["roman", "english", "ITRANS", "Latin"]

/-- formatters.py lines 75–130: `clean_transliteration`. -/
def clean_transliteration (text : List Char) (target_script : String) : List Char :=
  if text = [] then text
  else if is_indian_script text then collapseWS (clean_indian_script text)
  else
    let t1 := wordCorrectionsPass text
    let t2 := mixedScriptStep t1
    let t3 := charReplacementsPass t2
    let t4 := if target_script ∈ romanTargets then format_for_english t3 else t3
    collapseWS t4

/-! ### The orchestration in views.py -/

/-- views.py lines 141–154 / 299–312: `language_to_script`. -/
def language_to_script : List (String × String) :=
  [("hi", "Devanagari"), ("mr", "Devanagari"), ("ta", "Tamil"),
   ("te", "Telugu"), ("kn", "Kannada"), ("ml", "Malayalam"),
   ("gu", "Gujarati"), ("bn", "Bengali"), ("pa", "Gurmukhi"),
   ("or", "Oriya"), ("as", "Bengali"), ("en", "ITRANS")]

/-- views.py lines 163–175 / 367–379: `target_scripts` (insertion order of
the dict literal). -/
def target_scripts : List (String × String) :=
  [("Devanagari (Hindi)", "Devanagari"), ("Devanagari (Marathi)", "Devanagari"),
   ("Tamil", "Tamil"), ("Telugu", "Telugu"), ("Kannada", "Kannada"),
   ("Malayalam", "Malayalam"), ("Gujarati", "Gujarati"), ("Bengali", "Bengali"),
   ("Gurmukhi", "Gurmukhi"), ("Oriya", "Oriya"), ("Roman", "ITRANS")]

/-- views.py line 157 / 182: `detected_language == 'en' or not
detected_language or detected_language == 'unknown'` (`not s` on a string is
the empty-string test). -/
def isEnglishDetected (d : String) : Bool :=
  d = "en" || d = "" || d = "unknown"

/-- views.py lines 156–160: source-script resolution of `transliterate_image`. -/
def imageSourceScript (d : String) : String :=
  if isEnglishDetected d then "ITRANS"
  else (language_to_script.lookup d).getD "ITRANS"

/-- views.py lines 316–319: `actual_source_language` of `transliterate_single`. -/
def actualSourceLanguage (detected userSrc : String) : String :=
  if detected = "en" || userSrc = "en" then "en"
  else if detected ≠ "unknown" then detected else userSrc

/-- views.py line 322: `language_to_script.get(actual_source_language,
'Devanagari')`. -/
def singleSourceScript (detected userSrc : String) : String :=
  (language_to_script.lookup (actualSourceLanguage detected userSrc)).getD "Devanagari"

/-- views.py line 323: `language_to_script.get(target_language, 'ITRANS')`. -/
def singleTargetScript (targetLang : String) : String :=
  (language_to_script.lookup targetLang).getD "ITRANS"

/-- The opaque external conversion engine
`aksharamukha.transliterate.process(src, tgt, text)`; `none` models the
call raising an exception. -/
def Conv : Type := String → String → List Char → Option (List Char)

/-- views.py lines 179–214 (and identically 383–418): handling of one
target script inside the all-targets loop.  `enMode` is the
English-detected condition; on primary failure there is a single fallback
forcing ITRANS as source, and on total failure the raw extracted text is
substituted. -/
def convertTargetWith (conv : Conv) (enMode : Bool) (sourceScript code : String)
    (x : List Char) : List Char :=
  match (if enMode then
           (if code = "ITRANS" then some x else conv "ITRANS" code x)
         else conv sourceScript code x) with
  | some t => clean_transliteration t code
  | none =>
    match conv "ITRANS" code x with
    | some t => clean_transliteration t code
    | none => x

/-- views.py lines 177–214: the `transliterations` mapping produced by
`transliterate_image` (ordered, keys in `target_scripts` order). -/
def transImageAll (conv : Conv) (detected sourceScript : String) (x : List Char) :
    List (String × List Char) :=
  target_scripts.map (fun nc =>
    (nc.1, convertTargetWith conv (isEnglishDetected detected) sourceScript nc.2 x))

/-- views.py lines 381–418: the `all_transliterations` mapping produced by
`transliterate_single`. -/
def transSingleAll (conv : Conv) (actualSrc sourceScript : String) (x : List Char) :
    List (String × List Char) :=
  target_scripts.map (fun nc =>
    (nc.1, convertTargetWith conv (actualSrc = "en") sourceScript nc.2 x))

/-- views.py line 364: the diagnostic string built on total failure of the
single-target conversion. -/
def failDiagnostic (x : List Char) : List Char :=
  "[Transliteration failed: OCR output appears to be garbled. Original: ".toList
    ++ x.take 50 ++ "...]".toList

/-- views.py lines 326–364: the single-target conversion
(`transliterated_text`).  In the English-source/ITRANS-target case the raw
extracted text is returned without formatting (line 333); everywhere else a
successful conversion is formatted, and total failure yields the diagnostic
string. -/
def transSingleOne (conv : Conv) (actualSrc sourceScript code : String)
    (x : List Char) : List Char :=
  match (if actualSrc = "en" then
           (if code = "ITRANS" then some x
            else Option.map (fun r => clean_transliteration r code) (conv "ITRANS" code x))
         else Option.map (fun r => clean_transliteration r code) (conv sourceScript code x)) with
  | some t => t
  | none =>
    match conv "ITRANS" code x with
    | some r => clean_transliteration r code
    | none => failDiagnostic x

/-- A conversion oracle that fails on every invocation. -/
def convFail : Conv := fun _ _ _ => none

/-! ## Character-level facts -/

theorem toNat_ofNat_of_lt {n : Nat} (h : n < 0xd800) : (Char.ofNat n).toNat = n := by
  unfold Char.ofNat
  rw [dif_pos (Or.inl h)]
  rfl

theorem isAsciiUpper_iff {c : Char} :
    isAsciiUpper c = true ↔ (65 ≤ c.toNat ∧ c.toNat ≤ 90) := by
  simp [isAsciiUpper]

theorem pyLower_toNat {c : Char} (h : isAsciiUpper c = true) :
    (pyLower c).toNat = c.toNat + 32 := by
  rcases isAsciiUpper_iff.mp h with ⟨h1, h2⟩
  unfold pyLower
  rw [if_pos h, toNat_ofNat_of_lt (by omega)]

theorem isAsciiUpper_pyLower {c : Char} (h : isAsciiUpper c = true) :
    isAsciiUpper (pyLower c) = false := by
  rcases isAsciiUpper_iff.mp h with ⟨h1, h2⟩
  simp [isAsciiUpper, pyLower_toNat h]
  omega

theorem isIndic8_pyLower {c : Char} (h : isAsciiUpper c = true) :
    isIndic8 (pyLower c) = false := by
  rcases isAsciiUpper_iff.mp h with ⟨h1, h2⟩
  simp [isIndic8, isDevanagariChar, isTeluguChar, isTamilChar, isKannadaChar,
    isMalayalamChar, isGujaratiChar, isBengaliChar, isPunjabiChar, inCodeRange,
    pyLower_toNat h]
  omega

theorem isIndic8_not_upper {c : Char} (h : isIndic8 c = true) :
    isAsciiUpper c = false := by
  simp [isIndic8, isDevanagariChar, isTeluguChar, isTamilChar, isKannadaChar,
    isMalayalamChar, isGujaratiChar, isBengaliChar, isPunjabiChar, inCodeRange] at h
  simp [isAsciiUpper]
  omega

theorem pyLower_of_not_upper {c : Char} (h : isAsciiUpper c = false) :
    pyLower c = c := by
  unfold pyLower
  rw [if_neg (by simp [h])]

/-! ## `containsSub` / `pyReplace` facts -/

theorem isPrefixOf_self : ∀ (l : List Char), l.isPrefixOf l = true
  | [] => rfl
  | c :: rest => by simp [List.isPrefixOf, isPrefixOf_self rest]

theorem isPrefixOf_map_pyLower :
    ∀ {k s : List Char}, k.isPrefixOf s = true →
      (pyStrLower k).isPrefixOf (pyStrLower s) = true := by
  intro k
  induction k with
  | nil => intro s _; simp [pyStrLower, List.isPrefixOf]
  | cons a k ih =>
    intro s h
    cases s with
    | nil => simp [List.isPrefixOf] at h
    | cons b s =>
      simp only [List.isPrefixOf, Bool.and_eq_true, beq_iff_eq] at h
      simp only [pyStrLower, List.map_cons, List.isPrefixOf, Bool.and_eq_true, beq_iff_eq]
      exact ⟨by rw [h.1], ih h.2⟩

theorem containsSub_map_pyLower :
    ∀ {t k : List Char}, containsSub k t = true →
      containsSub (pyStrLower k) (pyStrLower t) = true := by
  intro t
  induction t with
  | nil => intro k h; simpa [containsSub, pyStrLower] using isPrefixOf_map_pyLower h
  | cons c rest ih =>
    intro k h
    simp only [containsSub, Bool.or_eq_true] at h ⊢
    rcases h with h | h
    · exact Or.inl (isPrefixOf_map_pyLower h)
    · exact Or.inr (ih h)

theorem mem_replaceGo {a : Char} {pat rep : List Char} :
    ∀ {fuel : Nat} {s : List Char}, a ∈ replaceGo pat rep fuel s → a ∈ s ∨ a ∈ rep := by
  intro fuel
  induction fuel with
  | zero =>
    intro s h
    cases s with
    | nil => simp [replaceGo] at h
    | cons c rest => exact Or.inl (by simpa [replaceGo] using h)
  | succ fuel ih =>
    intro s h
    cases s with
    | nil => simp [replaceGo] at h
    | cons c rest =>
      rw [replaceGo] at h
      split at h
      · rcases List.mem_append.mp h with h | h
        · exact Or.inr h
        · rcases ih h with h | h
          · exact Or.inl (List.drop_subset _ _ h)
          · exact Or.inr h
      · rcases List.mem_cons.mp h with h | h
        · exact Or.inl (by simp [h])
        · rcases ih h with h | h
          · exact Or.inl (List.mem_cons_of_mem _ h)
          · exact Or.inr h

theorem replaceGo_id_of_not_contains {pat rep : List Char} :
    ∀ {fuel : Nat} {s : List Char}, containsSub pat s = false →
      replaceGo pat rep fuel s = s := by
  intro fuel
  induction fuel with
  | zero => intro s _; cases s <;> simp [replaceGo]
  | succ fuel ih =>
    intro s h
    cases s with
    | nil => simp [replaceGo]
    | cons c rest =>
      simp only [containsSub, Bool.or_eq_false_iff] at h
      rw [replaceGo, if_neg (by simp [h.1]), ih h.2]

theorem pyReplace_id_of_not_contains {s pat rep : List Char}
    (h : containsSub pat s = false) : pyReplace s pat rep = s :=
  replaceGo_id_of_not_contains h

theorem not_mem_replaceGo_single {d : Char} {rep : List Char} (hrep : d ∉ rep) :
    ∀ {fuel : Nat} {s : List Char}, s.length ≤ fuel → d ∉ replaceGo [d] rep fuel s := by
  intro fuel
  induction fuel with
  | zero =>
    intro s hlen
    have : s = [] := List.eq_nil_of_length_eq_zero (Nat.le_zero.mp hlen)
    subst this
    simp [replaceGo]
  | succ fuel ih =>
    intro s hlen
    cases s with
    | nil => simp [replaceGo]
    | cons c rest =>
      rw [replaceGo]
      by_cases hdc : d = c
      · subst hdc
        rw [if_pos (by simp [List.isPrefixOf, isPrefixOf_self])]
        intro hmem
        rcases List.mem_append.mp hmem with h | h
        · exact hrep h
        · exact ih (by simpa using Nat.le_of_succ_le_succ hlen) (by simpa using h)
      · rw [if_neg (by simp [List.isPrefixOf]; exact hdc)]
        intro hmem
        rcases List.mem_cons.mp hmem with h | h
        · exact hdc h
        · exact ih (by simpa using Nat.le_of_succ_le_succ hlen) h

theorem replaceGo_single_id {d : Char} {rep : List Char} :
    ∀ {fuel : Nat} {s : List Char}, d ∉ s → replaceGo [d] rep fuel s = s := by
  intro fuel
  induction fuel with
  | zero => intro s _; cases s <;> simp [replaceGo]
  | succ fuel ih =>
    intro s h
    cases s with
    | nil => simp [replaceGo]
    | cons c rest =>
      have hdc : ¬d = c := fun hh => h (by simp [hh])
      rw [replaceGo, if_neg (by simp [List.isPrefixOf]; exact hdc),
        ih (fun hh => h (List.mem_cons_of_mem _ hh))]

theorem pyReplace_self {k v : List Char} (h : k ≠ []) : pyReplace k k v = v := by
  cases k with
  | nil => exact absurd rfl h
  | cons c rest =>
    show replaceGo (c :: rest) v (rest.length + 1) (c :: rest) = v
    rw [replaceGo, if_pos ⟨by simp, isPrefixOf_self _⟩, List.drop_length]
    simp [replaceGo]

/-! ## The word-correction pass and the mixed-script step -/

theorem mem_wcStep {a : Char} {cur : List Char} {kv : List Char × List Char}
    (h : a ∈ wcStep cur kv) : a ∈ cur ∨ a ∈ kv.2 := by
  unfold wcStep at h
  split at h
  · exact mem_replaceGo h
  · exact Or.inl h

theorem mem_foldl_wcStep :
    ∀ {tbl : List (List Char × List Char)} {s : List Char} {a : Char},
      a ∈ tbl.foldl wcStep s → a ∈ s ∨ ∃ kv ∈ tbl, a ∈ kv.2 := by
  intro tbl
  induction tbl with
  | nil => intro s a h; exact Or.inl h
  | cons kv t ih =>
    intro s a h
    rcases ih (by simpa using h) with h2 | ⟨kv2, hm, hv⟩
    · rcases mem_wcStep h2 with h3 | h3
      · exact Or.inl h3
      · exact Or.inr ⟨kv, by simp, h3⟩
    · exact Or.inr ⟨kv2, by simp [hm], hv⟩

theorem has_inner_eq_false_iff {s : List Char} :
    has_indian_script_inner s = false ↔ ∀ c ∈ s, devTelTamChar c = false := by
  simp only [has_indian_script_inner, devTelTamChar, Bool.or_eq_false_iff,
    List.any_eq_false, Bool.not_eq_true]
  constructor
  · rintro ⟨⟨h1, h2⟩, h3⟩ c hc
    simp [h1 c hc, h2 c hc, h3 c hc]
  · intro h
    refine ⟨⟨fun c hc => ?_, fun c hc => ?_⟩, fun c hc => ?_⟩ <;>
      have h2 := h c hc <;> simp only [Bool.or_eq_false_iff] at h2 <;> tauto

theorem is_indian_script_false_no_dtt {s : List Char}
    (h : is_indian_script s = false) : ∀ c ∈ s, devTelTamChar c = false := by
  simp only [is_indian_script, Bool.or_eq_false_iff, List.any_eq_false,
    Bool.not_eq_true] at h
  intro c hc
  simp [devTelTamChar, h.1.1.1.1 c hc, h.1.1.1.2 c hc, h.1.1.2 c hc]

theorem word_corrections_values_no_dtt :
    ∀ kv ∈ word_corrections, ∀ c ∈ kv.2, devTelTamChar c = false := by decide

theorem wordCorrectionsPass_no_dtt {s : List Char}
    (h : ∀ c ∈ s, devTelTamChar c = false) :
    has_indian_script_inner (wordCorrectionsPass s) = false := by
  rw [has_inner_eq_false_iff]
  intro c hc
  rcases mem_foldl_wcStep hc with h2 | ⟨kv, hm, hv⟩
  · exact h c h2
  · exact word_corrections_values_no_dtt kv hm c hv

/-! ## The character-replacement pass -/

theorem charTableFold_not_mem {d : Char} :
    ∀ {tbl : List (Char × List Char)} {s : List Char},
      d ∉ s → (∀ kv ∈ tbl, d ∉ kv.2) → d ∉ charTableFold tbl s := by
  intro tbl
  induction tbl with
  | nil => intro s hs _; exact hs
  | cons kv t ih =>
    intro s hs htbl
    have step : d ∉ pyReplace s [kv.1] kv.2 := by
      intro hmem
      rcases mem_replaceGo hmem with h | h
      · exact hs h
      · exact htbl kv (by simp) h
    show d ∉ charTableFold t (pyReplace s [kv.1] kv.2)
    exact ih step (fun kv2 hm => htbl kv2 (by simp [hm]))

theorem charTableFold_key_not_mem :
    ∀ {tbl : List (Char × List Char)} {kv : Char × List Char}, kv ∈ tbl →
      (∀ kv2 ∈ tbl, kv.1 ∉ kv2.2) → ∀ {s : List Char}, kv.1 ∉ charTableFold tbl s := by
  intro tbl
  induction tbl with
  | nil => intro kv h; simp at h
  | cons kv0 t ih =>
    intro kv hkv hcross s
    rcases List.mem_cons.mp hkv with heq | hmem
    · subst heq
      have h1 : kv.1 ∉ pyReplace s [kv.1] kv.2 :=
        not_mem_replaceGo_single (hcross kv (by simp)) (Nat.le_refl _)
      show kv.1 ∉ charTableFold t (pyReplace s [kv.1] kv.2)
      exact charTableFold_not_mem h1 (fun kv2 hm => hcross kv2 (by simp [hm]))
    · show kv.1 ∉ charTableFold t (pyReplace s [kv0.1] kv0.2)
      exact ih hmem (fun kv2 hm => hcross kv2 (by simp [hm]))

theorem charTableFold_id :
    ∀ {tbl : List (Char × List Char)} {t : List Char},
      (∀ kv ∈ tbl, kv.1 ∉ t) → charTableFold tbl t = t := by
  intro tbl
  induction tbl with
  | nil => intro t _; rfl
  | cons kv0 tl ih =>
    intro t h
    have h0 : pyReplace t [kv0.1] kv0.2 = t := replaceGo_single_id (h kv0 (by simp))
    show charTableFold tl (pyReplace t [kv0.1] kv0.2) = t
    rw [h0]
    exact ih (fun kv hm => h kv (by simp [hm]))

theorem character_replacements_keys_not_in_values :
    ∀ kv ∈ character_replacements, ∀ kv2 ∈ character_replacements,
      kv.1 ∉ kv2.2 := by decide

theorem charReplacementsPass_idem (s : List Char) :
    charReplacementsPass (charReplacementsPass s) = charReplacementsPass s :=
  charTableFold_id (fun kv hkv =>
    charTableFold_key_not_mem hkv (character_replacements_keys_not_in_values kv hkv))

/-! ## `split` / `join` facts -/

theorem pySplitGo_tokens :
    ∀ (s cur : List Char), (∀ c ∈ cur, isPySpace c = false) →
      ∀ t ∈ pySplitGo cur s, t ≠ [] ∧ ∀ c ∈ t, isPySpace c = false := by
  intro s
  induction s with
  | nil =>
    intro cur hcur t ht
    by_cases hc : cur = []
    · simp [pySplitGo, hc] at ht
    · simp only [pySplitGo, if_neg hc, List.mem_singleton] at ht
      subst ht
      refine ⟨by simpa using hc, fun c hc2 => hcur c (List.mem_reverse.mp hc2)⟩
  | cons c rest ih =>
    intro cur hcur t ht
    simp only [pySplitGo] at ht
    by_cases hsp : isPySpace c = true
    · rw [if_pos hsp] at ht
      by_cases hc : cur = []
      · rw [if_pos hc] at ht
        exact ih [] (by simp) t ht
      · rw [if_neg hc] at ht
        rcases List.mem_cons.mp ht with heq | hmem
        · subst heq
          refine ⟨by simpa using hc, fun c2 hc2 => hcur c2 (List.mem_reverse.mp hc2)⟩
        · exact ih [] (by simp) t hmem
    · rw [if_neg hsp] at ht
      refine ih (c :: cur) ?_ t ht
      intro c2 hc2
      rcases List.mem_cons.mp hc2 with heq | hmem
      · subst heq; simpa using hsp
      · exact hcur c2 hmem

theorem pySplitGo_append_token :
    ∀ (t : List Char), (∀ c ∈ t, isPySpace c = false) → ∀ (cur s : List Char),
      pySplitGo cur (t ++ s) = pySplitGo (t.reverse ++ cur) s := by
  intro t
  induction t with
  | nil => intro _ cur s; simp
  | cons c t ih =>
    intro h cur s
    have hc : isPySpace c = false := h c (by simp)
    have ht : ∀ c2 ∈ t, isPySpace c2 = false := fun c2 hm => h c2 (by simp [hm])
    show pySplitGo cur (c :: (t ++ s)) = pySplitGo ((c :: t).reverse ++ cur) s
    simp only [pySplitGo]
    rw [if_neg (by simp [hc]), ih ht (c :: cur) s]
    congr 1
    simp

theorem pySplit_joinSp :
    ∀ (toks : List (List Char)),
      (∀ t ∈ toks, t ≠ [] ∧ ∀ c ∈ t, isPySpace c = false) →
      pySplit (joinSp toks) = toks := by
  intro toks
  match toks with
  | [] => intro _; rfl
  | [t] =>
    intro h
    rcases h t (by simp) with ⟨hne, hns⟩
    show pySplitGo [] (joinSp [t]) = [t]
    have : joinSp [t] = t ++ [] := by simp [joinSp]
    rw [this, pySplitGo_append_token t hns [] []]
    have hrev : t.reverse ≠ [] := by simpa using hne
    simp [pySplitGo, hrev]
  | t :: t2 :: ts =>
    intro h
    rcases h t (by simp) with ⟨hne, hns⟩
    have hrev : ¬(t.reverse = []) := by simpa using hne
    show pySplitGo [] (joinSp (t :: t2 :: ts)) = t :: t2 :: ts
    have hj : joinSp (t :: t2 :: ts) = t ++ (' ' :: joinSp (t2 :: ts)) := rfl
    rw [hj, pySplitGo_append_token t hns [] _, List.append_nil]
    simp only [pySplitGo]
    rw [if_pos (by decide), if_neg hrev, List.reverse_reverse]
    have ihr := pySplit_joinSp (t2 :: ts) (fun t3 hm => h t3 (by simp [hm]))
    simp only [pySplit] at ihr
    rw [ihr]

theorem collapseWS_idem (s : List Char) :
    collapseWS (collapseWS s) = collapseWS s := by
  unfold collapseWS
  rw [show pySplit (joinSp (pySplit s)) = pySplit s from
    pySplit_joinSp _ (pySplitGo_tokens s [] (by simp))]

/-! ## Boolean helpers -/

theorem bool_and_elim {a b : Bool} (h : (a && b) = true) : a = true ∧ b = true := by
  simp only [Bool.and_eq_true] at h
  exact h

/-! ## The Indic-script repair: `lowerStep` facts -/

theorem lowerStep_refl (a : Char) : lowerStep a a := Or.inl rfl

theorem lowerStep_upper_reflect {a b : Char} (h : lowerStep a b)
    (hb : isAsciiUpper b = true) : b = a ∧ isAsciiUpper a = true := by
  rcases h with h | ⟨ha, h⟩
  · subst h; exact ⟨rfl, hb⟩
  · subst h; rw [isAsciiUpper_pyLower ha] at hb; cases hb

theorem lowerStep_indic_reflect {a b : Char} (h : lowerStep a b)
    (hb : isIndic8 b = true) : b = a := by
  rcases h with h | ⟨ha, h⟩
  · exact h
  · subst h; rw [isIndic8_pyLower ha] at hb; cases hb

theorem lowerStep_trans {a b c : Char} (h1 : lowerStep a b) (h2 : lowerStep b c) :
    lowerStep a c := by
  rcases h1 with h1 | ⟨ha, h1⟩
  · subst h1; exact h2
  · subst h1
    rcases h2 with h2 | ⟨hb, h2⟩
    · subst h2; exact Or.inr ⟨ha, rfl⟩
    · rw [isAsciiUpper_pyLower ha] at hb; cases hb

theorem forall2_lowerStep_trans :
    ∀ {a b c : List Char}, List.Forall₂ lowerStep a b → List.Forall₂ lowerStep b c →
      List.Forall₂ lowerStep a c := by
  intro a b c h1
  induction h1 generalizing c with
  | nil => intro h2; cases h2; exact List.Forall₂.nil
  | cons hs ht ih =>
    intro h2
    cases h2 with
    | cons hs2 ht2 => exact List.Forall₂.cons (lowerStep_trans hs hs2) (ih ht2)

/-! ## The four repair rules only lowercase -/

theorem rule1_lower : ∀ s, List.Forall₂ lowerStep s (rule1 s)
  | [] => List.Forall₂.nil
  | [c] => List.Forall₂.cons (lowerStep_refl c) List.Forall₂.nil
  | a :: b :: rest => by
    by_cases h : (isAsciiUpper a && isIndic8 b) = true
    · rw [show rule1 (a :: b :: rest) = pyLower a :: b :: rule1 rest by simp [rule1, h]]
      exact List.Forall₂.cons (Or.inr ⟨(bool_and_elim h).1, rfl⟩)
        (List.Forall₂.cons (lowerStep_refl b) (rule1_lower rest))
    · rw [show rule1 (a :: b :: rest) = a :: rule1 (b :: rest) by simp [rule1, h]]
      exact List.Forall₂.cons (lowerStep_refl a) (rule1_lower (b :: rest))

theorem rule2_lower : ∀ s, List.Forall₂ lowerStep s (rule2 s)
  | [] => List.Forall₂.nil
  | [c] => List.Forall₂.cons (lowerStep_refl c) List.Forall₂.nil
  | a :: b :: rest => by
    by_cases h : (isIndic8 a && isAsciiUpper b) = true
    · rw [show rule2 (a :: b :: rest) = a :: pyLower b :: rule2 rest by simp [rule2, h]]
      exact List.Forall₂.cons (lowerStep_refl a)
        (List.Forall₂.cons (Or.inr ⟨(bool_and_elim h).2, rfl⟩) (rule2_lower rest))
    · rw [show rule2 (a :: b :: rest) = a :: rule2 (b :: rest) by simp [rule2, h]]
      exact List.Forall₂.cons (lowerStep_refl a) (rule2_lower (b :: rest))

theorem rule3_lower : ∀ s, List.Forall₂ lowerStep s (rule3 s)
  | [] => List.Forall₂.nil
  | [c] => List.Forall₂.cons (lowerStep_refl c) List.Forall₂.nil
  | [c, d] => List.Forall₂.cons (lowerStep_refl c)
      (List.Forall₂.cons (lowerStep_refl d) List.Forall₂.nil)
  | a :: b :: c :: rest => by
    by_cases h : (isIndic8 a && isAsciiUpper b && isIndic8 c) = true
    · rw [show rule3 (a :: b :: c :: rest) = a :: pyLower b :: c :: rule3 rest by
        simp [rule3, h]]
      exact List.Forall₂.cons (lowerStep_refl a)
        (List.Forall₂.cons (Or.inr ⟨(bool_and_elim (bool_and_elim h).1).2, rfl⟩)
          (List.Forall₂.cons (lowerStep_refl c) (rule3_lower rest)))
    · rw [show rule3 (a :: b :: c :: rest) = a :: rule3 (b :: c :: rest) by simp [rule3, h]]
      exact List.Forall₂.cons (lowerStep_refl a) (rule3_lower (b :: c :: rest))

theorem rule4Go_lower : ∀ (prev : Option Char) (s : List Char),
    List.Forall₂ lowerStep s (rule4Go prev s)
  | _, [] => List.Forall₂.nil
  | prev, c :: rest => by
    refine List.Forall₂.cons ?_ (rule4Go_lower (some c) rest)
    split
    · next hcond => exact Or.inr ⟨(bool_and_elim (bool_and_elim hcond).1).1, rfl⟩
    · exact lowerStep_refl c

theorem clean_indian_script_lower (s : List Char) :
    List.Forall₂ lowerStep s (clean_indian_script s) :=
  forall2_lowerStep_trans
    (forall2_lowerStep_trans
      (forall2_lowerStep_trans (rule1_lower s) (rule2_lower (rule1 s)))
      (rule3_lower (rule2 (rule1 s))))
    (rule4Go_lower none (rule3 (rule2 (rule1 s))))

/-! ## Adjacency invariants of the repair rules -/

theorem noUI_cons_notUpper {a : Char} {l : List Char} (ha : isAsciiUpper a = false)
    (hl : noUpperBeforeIndic l = true) : noUpperBeforeIndic (a :: l) = true := by
  cases l with
  | nil => rfl
  | cons b t =>
    show (!(isAsciiUpper a && isIndic8 b) && noUpperBeforeIndic (b :: t)) = true
    simp [ha, hl]

theorem noIU_cons_notIndic {a : Char} {l : List Char} (ha : isIndic8 a = false)
    (hl : noUpperAfterIndic l = true) : noUpperAfterIndic (a :: l) = true := by
  cases l with
  | nil => rfl
  | cons b t =>
    show (!(isIndic8 a && isAsciiUpper b) && noUpperAfterIndic (b :: t)) = true
    simp [ha, hl]

theorem noIU_cons_notUpperHead {a b : Char} {t : List Char} (hb : isAsciiUpper b = false)
    (hl : noUpperAfterIndic (b :: t) = true) : noUpperAfterIndic (a :: b :: t) = true := by
  show (!(isIndic8 a && isAsciiUpper b) && noUpperAfterIndic (b :: t)) = true
  simp [hb, hl]

theorem rule1_cons (b : Char) (rest : List Char) :
    (∃ t, rule1 (b :: rest) = b :: t) ∨
    (isAsciiUpper b = true ∧ ∃ t, rule1 (b :: rest) = pyLower b :: t) := by
  cases rest with
  | nil => exact Or.inl ⟨[], rfl⟩
  | cons r rt =>
    by_cases h : (isAsciiUpper b && isIndic8 r) = true
    · exact Or.inr ⟨(bool_and_elim h).1, r :: rule1 rt, by simp [rule1, h]⟩
    · exact Or.inl ⟨rule1 (r :: rt), by simp [rule1, h]⟩

theorem rule2_cons (b : Char) (rest : List Char) : ∃ t, rule2 (b :: rest) = b :: t := by
  cases rest with
  | nil => exact ⟨[], rfl⟩
  | cons r rt =>
    by_cases h : (isIndic8 b && isAsciiUpper r) = true
    · exact ⟨pyLower r :: rule2 rt, by simp [rule2, h]⟩
    · exact ⟨rule2 (r :: rt), by simp [rule2, h]⟩

theorem rule1_noUI : ∀ s, noUpperBeforeIndic (rule1 s) = true
  | [] => rfl
  | [_] => rfl
  | a :: b :: rest => by
    by_cases h : (isAsciiUpper a && isIndic8 b) = true
    · rw [show rule1 (a :: b :: rest) = pyLower a :: b :: rule1 rest by simp [rule1, h]]
      rcases bool_and_elim h with ⟨ha, hb⟩
      exact noUI_cons_notUpper (isAsciiUpper_pyLower ha)
        (noUI_cons_notUpper (isIndic8_not_upper hb) (rule1_noUI rest))
    · rw [show rule1 (a :: b :: rest) = a :: rule1 (b :: rest) by simp [rule1, h]]
      have h2 := rule1_noUI (b :: rest)
      rcases rule1_cons b rest with ⟨t, ht⟩ | ⟨hb, t, ht⟩
      · rw [ht] at h2 ⊢
        show (!(isAsciiUpper a && isIndic8 b) && noUpperBeforeIndic (b :: t)) = true
        simp [h, h2]
      · rw [ht] at h2 ⊢
        show (!(isAsciiUpper a && isIndic8 (pyLower b)) && noUpperBeforeIndic (pyLower b :: t)) = true
        simp [isIndic8_pyLower hb, h2]

theorem rule2_noIU : ∀ s, noUpperAfterIndic (rule2 s) = true
  | [] => rfl
  | [_] => rfl
  | a :: b :: rest => by
    by_cases h : (isIndic8 a && isAsciiUpper b) = true
    · rw [show rule2 (a :: b :: rest) = a :: pyLower b :: rule2 rest by simp [rule2, h]]
      rcases bool_and_elim h with ⟨_, hb⟩
      exact noIU_cons_notUpperHead (isAsciiUpper_pyLower hb)
        (noIU_cons_notIndic (isIndic8_pyLower hb) (rule2_noIU rest))
    · rw [show rule2 (a :: b :: rest) = a :: rule2 (b :: rest) by simp [rule2, h]]
      have h2 := rule2_noIU (b :: rest)
      rcases rule2_cons b rest with ⟨t, ht⟩
      rw [ht] at h2 ⊢
      show (!(isIndic8 a && isAsciiUpper b) && noUpperAfterIndic (b :: t)) = true
      simp [h, h2]

theorem noUI_of_forall2 :
    ∀ {s t : List Char}, List.Forall₂ lowerStep s t →
      noUpperBeforeIndic s = true → noUpperBeforeIndic t = true := by
  intro s t h
  induction h with
  | nil => intro _; rfl
  | @cons a b s2 t2 hab htail ih =>
    intro hs
    cases htail with
    | nil => rfl
    | @cons a2 b2 s3 t3 hab2 htail2 =>
      have hs1 : (!(isAsciiUpper a && isIndic8 a2)) = true ∧
          noUpperBeforeIndic (a2 :: s3) = true :=
        bool_and_elim (show ((!(isAsciiUpper a && isIndic8 a2)) &&
          noUpperBeforeIndic (a2 :: s3)) = true from hs)
      show ((!(isAsciiUpper b && isIndic8 b2)) && noUpperBeforeIndic (b2 :: t3)) = true
      have htl := ih hs1.2
      by_cases hub : isAsciiUpper b = true
      · rcases lowerStep_upper_reflect hab hub with ⟨heq, hua⟩
        by_cases hib : isIndic8 b2 = true
        · have heq2 := lowerStep_indic_reflect hab2 hib
          subst heq
          subst heq2
          exact absurd hs1.1 (by simp [hua, hib])
        · simp [hib, htl]
      · simp [Bool.eq_false_iff.mpr hub, htl]

theorem noIU_of_forall2 :
    ∀ {s t : List Char}, List.Forall₂ lowerStep s t →
      noUpperAfterIndic s = true → noUpperAfterIndic t = true := by
  intro s t h
  induction h with
  | nil => intro _; rfl
  | @cons a b s2 t2 hab htail ih =>
    intro hs
    cases htail with
    | nil => rfl
    | @cons a2 b2 s3 t3 hab2 htail2 =>
      have hs1 : (!(isIndic8 a && isAsciiUpper a2)) = true ∧
          noUpperAfterIndic (a2 :: s3) = true :=
        bool_and_elim (show ((!(isIndic8 a && isAsciiUpper a2)) &&
          noUpperAfterIndic (a2 :: s3)) = true from hs)
      show ((!(isIndic8 b && isAsciiUpper b2)) && noUpperAfterIndic (b2 :: t3)) = true
      have htl := ih hs1.2
      by_cases hib : isIndic8 b = true
      · have heq := lowerStep_indic_reflect hab hib
        by_cases hub : isAsciiUpper b2 = true
        · rcases lowerStep_upper_reflect hab2 hub with ⟨heq2, hua2⟩
          subst heq
          subst heq2
          exact absurd hs1.1 (by simp [hib, hua2])
        · simp [Bool.eq_false_iff.mpr hub, htl]
      · simp [Bool.eq_false_iff.mpr hib, htl]

theorem noSandwich_of_noIU :
    ∀ {l : List Char}, noUpperAfterIndic l = true → noSandwichedUpper l = true
  | [], _ => rfl
  | [_], _ => rfl
  | [_, _], _ => rfl
  | a :: b :: c :: t, h => by
    have h1 : (!(isIndic8 a && isAsciiUpper b)) = true ∧
        noUpperAfterIndic (b :: c :: t) = true :=
      bool_and_elim (show ((!(isIndic8 a && isAsciiUpper b)) &&
        noUpperAfterIndic (b :: c :: t)) = true from h)
    show ((!(isIndic8 a && isAsciiUpper b && isIndic8 c)) &&
      noSandwichedUpper (b :: c :: t)) = true
    have h2 : (isIndic8 a && isAsciiUpper b) = false := by
      have h3 := h1.1
      cases hx : (isIndic8 a && isAsciiUpper b)
      · rfl
      · rw [hx] at h3; exact absurd h3 (by simp)
    simp [h2, noSandwich_of_noIU h1.2]

theorem clean_indian_script_noUI (s : List Char) :
    noUpperBeforeIndic (clean_indian_script s) = true :=
  noUI_of_forall2 (rule4Go_lower none _)
    (noUI_of_forall2 (rule3_lower _)
      (noUI_of_forall2 (rule2_lower _) (rule1_noUI s)))

theorem clean_indian_script_noIU (s : List Char) :
    noUpperAfterIndic (clean_indian_script s) = true :=
  noIU_of_forall2 (rule4Go_lower none _)
    (noIU_of_forall2 (rule3_lower _) (rule2_noIU (rule1 s)))

theorem lowerStep_indic_input {a b : Char} (h : lowerStep a b)
    (ha : isIndic8 a = true) : b = a := by
  rcases h with h | ⟨hu, h⟩
  · exact h
  · rw [isIndic8_not_upper ha] at hu; cases hu

theorem is_indian_script_eq_any (s : List Char) :
    is_indian_script s = s.any branchIndicChar := by
  rw [Bool.eq_iff_iff]
  simp only [is_indian_script, branchIndicChar, List.any_eq_true, Bool.or_eq_true]
  constructor
  · rintro ((((h | h) | h) | h) | h) <;>
      · rcases h with ⟨c, hc, hp⟩
        exact ⟨c, hc, by tauto⟩
  · rintro ⟨c, hc, hp⟩
    rcases hp with (((hp | hp) | hp) | hp) | hp
    · exact Or.inl (Or.inl (Or.inl (Or.inl ⟨c, hc, hp⟩)))
    · exact Or.inl (Or.inl (Or.inl (Or.inr ⟨c, hc, hp⟩)))
    · exact Or.inl (Or.inl (Or.inr ⟨c, hc, hp⟩))
    · exact Or.inl (Or.inr ⟨c, hc, hp⟩)
    · exact Or.inr ⟨c, hc, hp⟩

theorem branchIndic_le_specIndic (c : Char) :
    (branchIndicChar c && specIndicChar c) = branchIndicChar c := by
  rw [Bool.eq_iff_iff]
  simp only [Bool.and_eq_true, Bool.or_eq_true, branchIndicChar, specIndicChar]
  tauto

/-! ## The claims -/

/-- C1 counterexample: the script classification does not use all eight
ranges the claim lists.  The Bengali letter KA (U+0995) is inside the
claim's eight ranges, yet the branch test of `clean_transliteration`
classifies a string consisting of it as non-Indic, so the Indic branch is
not taken. -/
theorem claim1_counterexample :
    is_indian_script [Char.ofNat 0x995] = false ∧
    specIndicChar (Char.ofNat 0x995) = true := by
  decide

/-- C1 (amended): script classification is total, and the Indic branch of
`clean_transliteration` is taken exactly when some character lies in one of
the FIVE ranges the branch actually tests (Devanagari U+0900–U+097F, Telugu
U+0C00–U+0C7F, Tamil U+0B80–U+0BFF, Kannada U+0C80–U+0CFF, Gujarati
U+0A80–U+0AFF); Bengali, Gurmukhi and Malayalam characters alone do not
select the Indic branch.  The five ranges are contained in the spec's eight
ranges. -/
theorem claim1_branch_is_five_ranges :
    (∀ s : List Char, is_indian_script s = s.any branchIndicChar) ∧
    (∀ c : Char, (branchIndicChar c && specIndicChar c) = branchIndicChar c) :=
  ⟨is_indian_script_eq_any, branchIndic_le_specIndic⟩

/-- C7: the English-to-Indic whole-word substitution inside
`clean_transliteration` is unreachable.  Whenever the non-Indic branch is
taken (`is_indian_script` is false), the word-correction pass cannot
introduce a Devanagari, Telugu or Tamil character, so the mixed-script
condition is false and the `english_to_indian_corrections` step is the
identity. -/
theorem claim7_mixed_script_step_unreachable (s : List Char)
    (h : is_indian_script s = false) :
    (has_english_caps (wordCorrectionsPass s) &&
      has_indian_script_inner (wordCorrectionsPass s)) = false ∧
    mixedScriptStep (wordCorrectionsPass s) = wordCorrectionsPass s := by
  have hin : has_indian_script_inner (wordCorrectionsPass s) = false :=
    wordCorrectionsPass_no_dtt (is_indian_script_false_no_dtt h)
  refine ⟨by simp [hin], ?_⟩
  unfold mixedScriptStep
  rw [if_neg (by simp [hin])]

/-- C7 witness at the concrete non-Indic input `"Hello"`. -/
theorem claim7_witness :
    is_indian_script "Hello".toList = false ∧
    mixedScriptStep (wordCorrectionsPass "Hello".toList) =
      wordCorrectionsPass "Hello".toList :=
  ⟨by decide, (claim7_mixed_script_step_unreachable "Hello".toList (by decide)).2⟩

/-- C8: for every input containing an Indic-script character, the output of
`_clean_indian_script` has no uppercase Latin letter immediately before or
after an Indic character, none sandwiched between two Indic characters,
every character is either kept or lowercased (the repair only ever
lowercases), and Indic characters themselves are unchanged in place. -/
theorem claim8_indic_repair_only_lowercases (s : List Char)
    (_h : s.any isIndic8 = true) :
    noUpperBeforeIndic (clean_indian_script s) = true ∧
    noUpperAfterIndic (clean_indian_script s) = true ∧
    noSandwichedUpper (clean_indian_script s) = true ∧
    List.Forall₂ lowerStep s (clean_indian_script s) ∧
    List.Forall₂ (fun a b => isIndic8 a = true → b = a) s (clean_indian_script s) := by
  refine ⟨clean_indian_script_noUI s, clean_indian_script_noIU s,
    noSandwich_of_noIU (clean_indian_script_noIU s), clean_indian_script_lower s, ?_⟩
  exact (clean_indian_script_lower s).imp (fun a b hab ha => lowerStep_indic_input hab ha)

/-- C8 witness at the concrete input `"Rक"` (an uppercase letter directly
before a Devanagari character). -/
theorem claim8_witness :
    ("Rक".toList.any isIndic8 = true) ∧
    (noUpperBeforeIndic (clean_indian_script "Rक".toList) = true ∧
     noUpperAfterIndic (clean_indian_script "Rक".toList) = true ∧
     noSandwichedUpper (clean_indian_script "Rक".toList) = true ∧
     List.Forall₂ lowerStep "Rक".toList (clean_indian_script "Rक".toList) ∧
     List.Forall₂ (fun a b => isIndic8 a = true → b = a) "Rक".toList
       (clean_indian_script "Rक".toList)) :=
  ⟨by decide, claim8_indic_repair_only_lowercases "Rक".toList (by decide)⟩

/-- C9: the word-correction step is gated case-insensitively but replaces
case-sensitively: if the exact key does not occur, the step leaves the text
unchanged (even when a case-insensitive occurrence opened the gate); if the
exact key occurs, the gate opens and the case-sensitive replacement is
performed, exact occurrences becoming the canonical form; and the
end-to-end example: `"dIpAvalI"` with a Roman target normalizes to exactly
`"Deepavali"`. -/
theorem claim9_word_correction_asymmetry (k v t : List Char) :
    (containsSub k t = false → wcStep t (k, v) = t) ∧
    (containsSub k t = true → wcStep t (k, v) = pyReplace t k v) ∧
    (k ≠ [] → pyReplace k k v = v) ∧
    clean_transliteration "dIpAvalI".toList "ITRANS" = "Deepavali".toList := by
  refine ⟨?_, ?_, pyReplace_self, by decide⟩
  · intro h
    unfold wcStep
    split
    · exact pyReplace_id_of_not_contains h
    · rfl
  · intro h
    unfold wcStep
    rw [if_pos (containsSub_map_pyLower h)]

/-- C9 witness: `"DIPAVALI"` matches the key `"dIpAvalI"` only
case-insensitively and is left unchanged by the step; `"xdIpAvalIy"`
contains the exact key and the case-sensitive replacement is applied. -/
theorem claim9_witness :
    (containsSub "dIpAvalI".toList "DIPAVALI".toList = false ∧
      wcStep "DIPAVALI".toList ("dIpAvalI".toList, "Deepavali".toList) =
        "DIPAVALI".toList) ∧
    (containsSub "dIpAvalI".toList "xdIpAvalIy".toList = true ∧
      wcStep "xdIpAvalIy".toList ("dIpAvalI".toList, "Deepavali".toList) =
        pyReplace "xdIpAvalIy".toList "dIpAvalI".toList "Deepavali".toList) :=
  ⟨⟨by decide, (claim9_word_correction_asymmetry _ _ _).1 (by decide)⟩,
   ⟨by decide, (claim9_word_correction_asymmetry _ _ _).2.1 (by decide)⟩⟩

/-- C10 counterexample: normalization is not idempotent.  On the
all-ASCII input `"dIpavaLi"` with target Devanagari, the first pass
leaves the word corrections inert (no exact key occurs) but character
replacement turns the text into `"dipavaLi"`, which IS an exact
word-correction key, so the second pass rewrites it to `"Deepavali"`. -/
theorem claim10_counterexample :
    clean_transliteration (clean_transliteration "dIpavaLi".toList "Devanagari")
        "Devanagari" ≠
      clean_transliteration "dIpavaLi".toList "Devanagari" := by
  decide

/-- C10 (amended): the full normalization is not idempotent (see the
counterexample), but the two passes the spec's parenthetical names are:
re-running the generic character replacement on its own output is a no-op,
and so is re-running the whitespace collapse. -/
theorem claim10_pass_idempotence (s : List Char) :
    charReplacementsPass (charReplacementsPass s) = charReplacementsPass s ∧
    collapseWS (collapseWS s) = collapseWS s :=
  ⟨charReplacementsPass_idem s, collapseWS_idem s⟩

/-- C2 counterexample: with an English-detected source, the Roman entry of
the all-targets mapping is NOT the input byte-for-byte: the conversion is
skipped, but the result is still normalized (word corrections, character
replacements and English formatting run on it), so `"dIpAvalI"` is stored
as `"Deepavali"`. -/
theorem claim2_counterexample :
    (transImageAll convFail "en" "ITRANS" "dIpAvalI".toList).lookup "Roman" =
      some "Deepavali".toList ∧
    "Deepavali".toList ≠ "dIpAvalI".toList := by
  decide

/-- C2 (amended): when the detected language resolves to English/ITRANS and
the target is ITRANS/Roman, no conversion call is made, but in the
all-targets mapping the Roman entry is the NORMALIZED input
(`clean_transliteration x "ITRANS"`), not the raw input; only the
single-target headline result (`transliterate_single` with English source
and ITRANS target) returns the input text unchanged. -/
theorem claim2_noop_path (conv : Conv) (d src : String) (x : List Char)
    (h : isEnglishDetected d = true) :
    (transImageAll conv d src x).lookup "Roman" =
      some (clean_transliteration x "ITRANS") ∧
    transSingleOne conv "en" src "ITRANS" x = x := by
  constructor
  · unfold transImageAll target_scripts
    rw [h]
    simp [convertTargetWith, List.lookup]
  · rfl

/-- C2 witness at the concrete detected tag `"en"` and input `"hello"`. -/
theorem claim2_witness :
    isEnglishDetected "en" = true ∧
    ((transImageAll convFail "en" "ITRANS" "hello".toList).lookup "Roman" =
        some (clean_transliteration "hello".toList "ITRANS") ∧
      transSingleOne convFail "en" "ITRANS" "ITRANS" "hello".toList =
        "hello".toList) :=
  ⟨by decide, claim2_noop_path convFail "en" "ITRANS" "hello".toList (by decide)⟩

/-- C3 counterexample: the raw-text substitution placed on total conversion
failure is NOT passed through the normalizer: with an always-failing
oracle, the Tamil entry stores the raw `"dIpavaLi"`, although the
normalizer would produce `"dipavaLi"` on it. -/
theorem claim3_counterexample :
    (transImageAll convFail "hi" "Devanagari" "dIpavaLi".toList).lookup "Tamil" =
      some "dIpavaLi".toList ∧
    clean_transliteration "dIpavaLi".toList "Tamil" ≠ "dIpavaLi".toList := by
  decide

/-- C3 (amended): every entry of the all-targets mapping is either the
normalizer's output on some conversion result (primary or fallback
success, and the English/ITRANS no-op, which is normalized too), or — when
the ITRANS fallback fails — the raw extracted text stored without
normalization. -/
theorem claim3_normalization_or_raw (conv : Conv) (enMode : Bool)
    (src code : String) (x : List Char) :
    (∃ t, convertTargetWith conv enMode src code x = clean_transliteration t code) ∨
    (convertTargetWith conv enMode src code x = x ∧ conv "ITRANS" code x = none) := by
  unfold convertTargetWith
  cases henp : (if enMode then (if code = "ITRANS" then some x else conv "ITRANS" code x)
      else conv src code x) with
  | some t => exact Or.inl ⟨t, rfl⟩
  | none =>
    cases hf : conv "ITRANS" code x with
    | some t2 => exact Or.inl ⟨t2, rfl⟩
    | none => exact Or.inr ⟨rfl, rfl⟩

/-- C4 counterexample: in `transliterate_single`, the source-script lookup
defaults to `"Devanagari"`, not ITRANS: for the tag `"unknown"` (both
detected and user-selected) the resolved source script is Devanagari. -/
theorem claim4_counterexample :
    singleSourceScript "unknown" "unknown" = "Devanagari" ∧
    singleSourceScript "unknown" "unknown" ≠ "ITRANS" := by
  decide

/-- C4 (amended): `transliterate_image` resolves the source script through
the fixed table with an ITRANS default for `en`, empty, `unknown` and every
unmapped tag; `transliterate_single` uses the same table but defaults to
`"Devanagari"` (not ITRANS) for tags not in the table, while an English
signal on either input still resolves to ITRANS (via the table entry for
`en`). -/
theorem claim4_source_resolution :
    (∀ d : String, imageSourceScript d = (language_to_script.lookup d).getD "ITRANS") ∧
    (∀ d u : String, language_to_script.lookup (actualSourceLanguage d u) = none →
      singleSourceScript d u = "Devanagari") ∧
    (∀ d u : String, (d = "en" ∨ u = "en") → singleSourceScript d u = "ITRANS") := by
  refine ⟨?_, ?_, ?_⟩
  · intro d
    by_cases h1 : d = "en"
    · subst h1; decide
    · by_cases h2 : d = ""
      · subst h2; decide
      · by_cases h3 : d = "unknown"
        · subst h3; decide
        · have hf : isEnglishDetected d = false := by
            simp [isEnglishDetected, h1, h2, h3]
          simp [imageSourceScript, hf]
  · intro d u h
    unfold singleSourceScript
    rw [h]
    rfl
  · intro d u h
    have ha : actualSourceLanguage d u = "en" := by
      unfold actualSourceLanguage
      rcases h with h | h <;> simp [h]
    unfold singleSourceScript
    rw [ha]
    decide

/-- C4 witness: the unmapped tag pair `("fr", "de")` resolves to Devanagari
in the single entry point, and an English user selection resolves to
ITRANS. -/
theorem claim4_witness :
    (language_to_script.lookup (actualSourceLanguage "fr" "de") = none ∧
      singleSourceScript "fr" "de" = "Devanagari") ∧
    (("hi" = "en" ∨ "en" = "en") ∧ singleSourceScript "hi" "en" = "ITRANS") :=
  ⟨⟨by decide, claim4_source_resolution.2.1 "fr" "de" (by decide)⟩,
   ⟨Or.inr rfl, claim4_source_resolution.2.2 "hi" "en" (Or.inr rfl)⟩⟩

/-- C5 counterexample: the fixed target mapping has 11 named entries, not
10 (two distinct display names, `"Devanagari (Hindi)"` and
`"Devanagari (Marathi)"`, share the Devanagari script, plus nine others and
`"Roman"`). -/
theorem claim5_counterexample :
    (transImageAll convFail "en" "ITRANS" ['a']).length = 11 ∧
    (transImageAll convFail "en" "ITRANS" ['a']).length ≠ 10 := by
  constructor
  · rfl
  · decide

/-- C5 (amended): for every oracle, detected language, source script and
input text, the all-targets conversion is total (no failure escapes the
per-target handling) and returns a mapping whose keys are exactly the 11
fixed display names in declaration order, with `"Roman"` mapped to the
ITRANS scheme. -/
theorem claim5_fixed_target_list (conv : Conv) (d src : String) (x : List Char) :
    (transImageAll conv d src x).map Prod.fst =
      ["Devanagari (Hindi)", "Devanagari (Marathi)", "Tamil", "Telugu", "Kannada",
       "Malayalam", "Gujarati", "Bengali", "Gurmukhi", "Oriya", "Roman"] ∧
    target_scripts.lookup "Roman" = some "ITRANS" :=
  ⟨rfl, by decide⟩

/-- C6 counterexample: when the oracle fails on every invocation but the
detected language is English, the all-targets mapping does NOT contain the
original text for every target: the Roman entry is built without invoking
the oracle and is normalized to `"Deepavali"`. -/
theorem claim6_counterexample :
    (transImageAll convFail "en" "x" "dIpAvalI".toList).lookup "Roman" =
      some "Deepavali".toList ∧
    ¬ (∀ p ∈ transImageAll convFail "en" "x" "dIpAvalI".toList,
        p.2 = "dIpAvalI".toList) := by
  refine ⟨by decide, fun hall => ?_⟩
  have := hall ("Roman", "Deepavali".toList) (by decide)
  exact absurd this (by decide)

/-- C6 (amended): if the external conversion fails on every invocation,
then (a) for a non-English detected source every all-targets entry is the
raw original text, and (b) whenever the single-target path is not the
English-source/ITRANS-target no-op, its result is the diagnostic string,
which contains the substring "Transliteration failed" and at most the
first 50 characters of the original text; no exception escapes (both
functions are total).  Under an English source the Roman/ITRANS entries
bypass the oracle instead. -/
theorem claim6_total_failure_policy (conv : Conv)
    (d src actualSrc ssrc code : String) (x : List Char)
    (hconv : ∀ a b t, conv a b t = none)
    (hd : isEnglishDetected d = false)
    (hcode : ¬(actualSrc = "en" ∧ code = "ITRANS")) :
    (∀ p ∈ transImageAll conv d src x, p.2 = x) ∧
    transSingleOne conv actualSrc ssrc code x = failDiagnostic x ∧
    (∃ a b, failDiagnostic x = a ++ "Transliteration failed".toList ++ b) ∧
    (x.take 50).length ≤ 50 ∧
    (∃ r, x.take 50 ++ r = x) := by
  refine ⟨?_, ?_, ?_, ?_, ⟨x.drop 50, List.take_append_drop 50 x⟩⟩
  · intro p hp
    rcases List.mem_map.mp hp with ⟨nc, _, heq⟩
    subst heq
    simp [convertTargetWith, hd, hconv]
  · by_cases hen : actualSrc = "en"
    · have hc2 : ¬code = "ITRANS" := fun hc => hcode ⟨hen, hc⟩
      simp [transSingleOne, hen, hc2, hconv]
    · simp [transSingleOne, hen, hconv]
  · refine ⟨"[".toList,
      ": OCR output appears to be garbled. Original: ".toList ++ x.take 50 ++
        "...]".toList, ?_⟩
    unfold failDiagnostic
    rw [show ("[Transliteration failed: OCR output appears to be garbled. Original: ".toList :
        List Char) =
      "[".toList ++ "Transliteration failed".toList ++
        ": OCR output appears to be garbled. Original: ".toList by decide]
    simp [List.append_assoc]
  · rw [List.length_take]
    omega

/-- C6 witness at the concrete detected tag `"hi"`, source script
Devanagari, target ITRANS and input `"dIpAvalI"`, with the always-failing
oracle. -/
theorem claim6_witness :
    (∀ p ∈ transImageAll convFail "hi" "Devanagari" "dIpAvalI".toList,
      p.2 = "dIpAvalI".toList) ∧
    transSingleOne convFail "hi" "Devanagari" "ITRANS" "dIpAvalI".toList =
      failDiagnostic "dIpAvalI".toList ∧
    (∃ a b, failDiagnostic "dIpAvalI".toList =
      a ++ "Transliteration failed".toList ++ b) ∧
    ("dIpAvalI".toList.take 50).length ≤ 50 ∧
    (∃ r, "dIpAvalI".toList.take 50 ++ r = "dIpAvalI".toList) :=
  claim6_total_failure_policy convFail "hi" "Devanagari" "hi" "Devanagari" "ITRANS"
    "dIpAvalI".toList (fun _ _ _ => rfl) (by decide) (by decide)

end Varnan
